import Mathlib

/-!
# Verification of the zsh-updater version-query engine

Shallow embedding of `src/utils/update_utils.py` (the authoritative,
feature-complete revision; `src/utils/utils.py` is an earlier variant of the
same git-tag query).  External collaborators (the HTTP client, the HTML/CSS
selector engine, the `git ls-remote` call) are modelled as oracle functions
supplied as explicit arguments, so every definition is a pure, executable
function of its inputs and the collaborators' responses.

The default regular expression `DEFAULT_VERSION_PATTERN =
r"[vV]?(\d+)\.(\d+)(?:\.(\d+))?$"` is embedded as a direct character-level
matcher implementing Python `re.search` semantics for this concrete pattern:
the pattern is anchored at the end of the string and is contiguous, so a match
starting at position `i` exists exactly when the whole suffix from `i` has the
shape "optional single v or V, digit run, dot, digit run, optionally dot and
digit run", and `re.search` returns the leftmost such suffix.  Digits are
ASCII digits (`Char.isDigit`), matching the ASCII fragment of Python `\d` /
`str.isdigit` that version strings use.
-/

namespace ZshUpdater

/-- One regex match of a version pattern: the full matched text and the
capture groups in declaration order, unmatched optional groups being `none`.
Mirrors the `VersionMatch` named tuple of `update_utils.py`. -/
structure VersionMatch where
  complete_match : String
  groups : List (Option String)
deriving DecidableEq, Repr

/-- Split a character list at every dot, mirroring Python `str.split('.')`
(so `"".split('.') = [""]` and separators are not kept). -/
def splitOnDot : List Char → List (List Char)
  | [] => [[]]
  | c :: rest =>
    if c = '.' then [] :: splitOnDot rest
    else
      match splitOnDot rest with
      | g :: gs => (c :: g) :: gs
      | [] => [[c]]

/-- A nonempty run of ASCII digits, the language of one `(\d+)` group. -/
def isDigitRun (cs : List Char) : Bool :=
  !cs.isEmpty && cs.all Char.isDigit

/-- Match the core shape `(\d+)\.(\d+)(?:\.(\d+))?` against an entire
character list, returning the three capture groups (the third is `none` when
the optional patch component is absent). -/
def versionCore (cs : List Char) : Option (List (Option String)) :=
  match splitOnDot cs with
  | [a, b] =>
    if isDigitRun a && isDigitRun b then
      some [some (String.mk a), some (String.mk b), none]
    else none
  | [a, b, c] =>
    if isDigitRun a && isDigitRun b && isDigitRun c then
      some [some (String.mk a), some (String.mk b), some (String.mk c)]
    else none
  | _ => none

/-- Match `[vV]?(\d+)\.(\d+)(?:\.(\d+))?` against an entire character list.
A leading `v`/`V` cannot start the digit core, so the greedy optional prefix
is equivalent to dropping one leading `v`/`V` when present. -/
def versionGroups (cs : List Char) : Option (List (Option String)) :=
  match cs with
  | [] => none
  | c :: rest =>
    if c = 'v' || c = 'V' then versionCore rest else versionCore (c :: rest)

/-- `re.search(DEFAULT_VERSION_PATTERN, s)` on the character list of `s`:
try every start position from the left; a match at a position must extend to
the end of the string (the pattern ends in `$` and is contiguous). -/
def searchVersionChars : List Char → Option VersionMatch
  | [] => none
  | c :: rest =>
    match versionGroups (c :: rest) with
    | some gs => some ⟨String.mk (c :: rest), gs⟩
    | none => searchVersionChars rest

/-- `re.search(DEFAULT_VERSION_PATTERN, s)`, producing the complete match and
its capture groups. -/
def searchVersion (s : String) : Option VersionMatch :=
  searchVersionChars s.data

/-- The literal prefix of the git-tag search pattern
`"refs/tags/{}".format(DEFAULT_VERSION_PATTERN)`. -/
def refsTagsLit : List Char := "refs/tags/".data

/-- `re.search("refs/tags/" + DEFAULT_VERSION_PATTERN, line)` on one
`git ls-remote --tags` output line, already stripped of the literal
`refs/tags/` prefix as `last_git_tag` does with
`match_obj.group()[len("refs/tags/"):]`. -/
def matchTagLineChars : List Char → Option VersionMatch
  | [] => none
  | c :: rest =>
    if refsTagsLit.isPrefixOf (c :: rest) then
      match versionGroups ((c :: rest).drop 10) with
      | some gs => some ⟨String.mk ((c :: rest).drop 10), gs⟩
      | none => matchTagLineChars rest
    else matchTagLineChars rest

/-- The default tag matcher of `VersionQuery.last_git_tag`: search the line
for `refs/tags/` followed by a default-pattern version ending the line, and
return the version part (prefix stripped) with its groups. -/
def matchTagLine (line : String) : Option VersionMatch :=
  matchTagLineChars line.data

/-- One element of a Python sort-key tuple: an `int` (from an all-digit
group) or a `str` (any other group). -/
inductive SortKeyElem
  | int (n : Nat)
  | str (s : String)
deriving DecidableEq, Repr

/-- Python `str.isdigit` for the strings stored in capture groups. -/
def strIsDigits (s : String) : Bool :=
  isDigitRun s.data

/-- Python `int(c)` for an all-digit string `c`. -/
def digitsToNat (s : String) : Nat :=
  s.data.foldl (fun n c => 10 * n + (c.toNat - '0'.toNat)) 0

/-- `default_sort_key` of `update_utils.py`: drop absent groups, then coerce
each remaining group to an integer when it is all digits and keep it as a
string otherwise. -/
def default_sort_key (elem : VersionMatch) : List SortKeyElem :=
  (elem.groups.filterMap id).map fun c =>
    if strIsDigits c then SortKeyElem.int (digitsToNat c) else SortKeyElem.str c

/-- Python `==` between two sort-key elements: cross-type equality is `false`
(it does not raise). -/
def elemEq : SortKeyElem → SortKeyElem → Bool
  | SortKeyElem.int a, SortKeyElem.int b => a == b
  | SortKeyElem.str a, SortKeyElem.str b => a == b
  | _, _ => false

/-- Python `<` between two sort-key elements: defined within one type,
`none` models the `TypeError` raised on a mixed `int`/`str` comparison. -/
def elemLt : SortKeyElem → SortKeyElem → Option Bool
  | SortKeyElem.int a, SortKeyElem.int b => some (decide (a < b))
  | SortKeyElem.str a, SortKeyElem.str b => some (decide (a < b))
  | _, _ => none

/-- Python tuple `<`: compare elementwise with `==` until the first
difference, decide there with `<`, and fall back to length comparison when
one tuple is a prefix of the other.  `none` models a `TypeError` from a
mixed-type `<` at the deciding position. -/
def keyLtOpt : List SortKeyElem → List SortKeyElem → Option Bool
  | [], [] => some false
  | [], _ :: _ => some true
  | _ :: _, [] => some false
  | a :: as, b :: bs => if elemEq a b then keyLtOpt as bs else elemLt a b

/-- Boolean tuple comparison used by the selection model.  The `none`
(`TypeError`) case is collapsed to `false`; it is proved unreachable for
candidates of the default pattern, whose keys are all-integer tuples. -/
def keyLt (a b : List SortKeyElem) : Bool :=
  (keyLtOpt a b).getD false

/-- All elements of a key tuple are integers. -/
def allInt (l : List SortKeyElem) : Bool :=
  l.all fun e => match e with
    | SortKeyElem.int _ => true
    | SortKeyElem.str _ => false

/-- Value of the key function produced by `url_verifier`: either the sentinel
`False` for a candidate whose verification URL did not answer 200, or the
wrapped key function's tuple.  The order `rankLt` places the sentinel below
every tuple, the comparison the sort relies on. -/
inductive RankVal
  | unranked
  | ranked (k : List SortKeyElem)
deriving DecidableEq, Repr

/-- Comparison on `RankVal`: `False` sorts strictly below every tuple, two
`False`s are equal, tuples compare by `keyLt`. -/
def rankLt : RankVal → RankVal → Bool
  | RankVal.unranked, RankVal.unranked => false
  | RankVal.unranked, RankVal.ranked _ => true
  | RankVal.ranked _, RankVal.unranked => false
  | RankVal.ranked a, RankVal.ranked b => keyLt a b

/-- The verification URL template of `url_verifier` after
`re.sub(r"\{(.+)\}", "{}", url_to_verify)`: the text before and after the
single `{}` placeholder. -/
structure UrlTemplate where
  pre : String
  post : String
deriving DecidableEq, Repr

/-- Substitute the transformed complete match into the template and test the
HEAD status against 200, the check `modified_key_func` performs.  `head` is
the oracle for `requests.head` (URL to status code) and `filter_func` is the
optional transform expression taken from the placeholder (`fun x => x` when
the placeholder holds no expression). -/
def verifies (head : String → Nat) (tmpl : UrlTemplate)
    (filter_func : String → String) (elem : VersionMatch) : Bool :=
  head (tmpl.pre ++ filter_func elem.complete_match ++ tmpl.post) == 200

/-- `url_verifier(key_func, url_to_verify)` of `update_utils.py`: the
modified key function returns `False` when the constructed URL does not
answer 200 and the wrapped key's value otherwise. -/
def url_verifier (head : String → Nat) (key_func : VersionMatch → List SortKeyElem)
    (tmpl : UrlTemplate) (filter_func : String → String)
    (elem : VersionMatch) : RankVal :=
  if verifies head tmpl filter_func elem then RankVal.ranked (key_func elem)
  else RankVal.unranked

/-- Python `max(cur :: xs, key=key)`: scan left to right, replacing the
current maximum only on a strictly greater key, so ties keep the earliest
element. -/
def pyMax {κ : Type} (lt : κ → κ → Bool) (key : VersionMatch → κ) :
    VersionMatch → List VersionMatch → VersionMatch
  | cur, [] => cur
  | cur, x :: xs => pyMax lt key (if lt (key cur) (key x) then x else cur) xs

/-- Insert into a descending-sorted list, after every element with a key not
below the new one, preserving stability for equal keys. -/
def insertDesc {κ : Type} (lt : κ → κ → Bool) (key : VersionMatch → κ)
    (x : VersionMatch) : List VersionMatch → List VersionMatch
  | [] => [x]
  | y :: ys => if lt (key y) (key x) then x :: y :: ys else y :: insertDesc lt key x ys

/-- Python `sorted(l, key=key, reverse=True)`: stable descending sort,
modelled as left-to-right stable insertion. -/
def sortDesc {κ : Type} (lt : κ → κ → Bool) (key : VersionMatch → κ)
    (l : List VersionMatch) : List VersionMatch :=
  l.foldl (fun acc x => insertDesc lt key x acc) []

/-- The shared selection tail of `last_git_tag` and `last_website_version`:
absent result on an empty match list; otherwise the single maximum by key in
a one-element list, or the top `min 3 len` complete matches sorted descending
by key. -/
def selectTop {κ : Type} (lt : κ → κ → Bool) (key : VersionMatch → κ)
    (candidates : List VersionMatch) (multiple_versions : Bool) : Option (List String) :=
  match candidates with
  | [] => none
  | m :: ms =>
    if multiple_versions then
      some (((sortDesc lt key (m :: ms)).take 3).map (fun v => v.complete_match))
    else
      some [(pyMax lt key m ms).complete_match]

/-- The tag-filtering loop of `last_git_tag`: keep the matches of the search
pattern (modelled as the `matcher` function, `matchTagLine` for the default
pattern) over the `git ls-remote --tags` output lines. -/
def filtered_tags (matcher : String → Option VersionMatch)
    (all_tags : List String) : List VersionMatch :=
  all_tags.filterMap matcher

/-- `VersionQuery.last_git_tag` after the remote listing succeeded, generic
in the compiled tag pattern (`matcher`) and the sort key: filter the tag
lines, then select the top-1 or top-3 complete matches. -/
def last_git_tag {κ : Type} (matcher : String → Option VersionMatch)
    (lt : κ → κ → Bool) (sort_key : VersionMatch → κ)
    (all_tags : List String) (multiple_versions : Bool) : Option (List String) :=
  selectTop lt sort_key (filtered_tags matcher all_tags) multiple_versions

/-- `last_git_tag` with the defaults: no verification URL, default pattern,
default sort key. -/
def last_git_tag_default (all_tags : List String) (multiple_versions : Bool) :
    Option (List String) :=
  last_git_tag matchTagLine keyLt default_sort_key all_tags multiple_versions

/-- `last_git_tag` with a verification URL: the sort key is wrapped by
`url_verifier` and candidates compare by `rankLt`. -/
def last_git_tag_verified (head : String → Nat) (tmpl : UrlTemplate)
    (filter_func : String → String) (all_tags : List String)
    (multiple_versions : Bool) : Option (List String) :=
  last_git_tag matchTagLine rankLt
    (url_verifier head default_sort_key tmpl filter_func) all_tags multiple_versions

/-- Failure of the remote listing call, `subprocess.check_output` raising
`CalledProcessError`; it propagates out of `last_git_tag` untouched. -/
inductive GitError
  | calledProcessError
deriving DecidableEq, Repr

/-- `last_git_tag` including the `git ls-remote --tags` call: a transport
failure propagates as an error, distinct from the absent (`none`) result of
an empty match list. -/
def last_git_tag_run {κ : Type} (listing : Except GitError (List String))
    (matcher : String → Option VersionMatch) (lt : κ → κ → Bool)
    (sort_key : VersionMatch → κ) (multiple_versions : Bool) :
    Except GitError (Option (List String)) :=
  match listing with
  | Except.error e => Except.error e
  | Except.ok all_tags =>
    Except.ok (last_git_tag matcher lt sort_key all_tags multiple_versions)

/-- `MAX_TRIES_FOR_PAGE_DOWNLOAD` of `update_utils.py`. -/
def MAX_TRIES_FOR_PAGE_DOWNLOAD : Nat := 3

/-- `WAIT_TIME_BETWEEN_PAGE_DOWNLOAD_TRIES` of `update_utils.py`, seconds. -/
def WAIT_TIME_BETWEEN_PAGE_DOWNLOAD_TRIES : Nat := 10

/-- A `requests` response: status code and body text. -/
structure HttpResponse where
  status_code : Nat
  text : String
deriving DecidableEq, Repr

/-- The retry loop of `last_website_version`: `get` is the oracle for
`requests.get` at each attempt index; a 200 response breaks the loop, a
failed attempt sleeps `WAIT_TIME_BETWEEN_PAGE_DOWNLOAD_TRIES` seconds and
retries.  Returns the response used (or `none` when every attempt failed,
the for-else `HTTPError` case) together with the total seconds slept. -/
def downloadLoop (get : Nat → HttpResponse) :
    Nat → Nat → Option HttpResponse × Nat
  | _, 0 => (none, 0)
  | i, remaining + 1 =>
    let r := get i
    if r.status_code == 200 then (some r, 0)
    else
      let rest := downloadLoop get (i + 1) remaining
      (rest.1, WAIT_TIME_BETWEEN_PAGE_DOWNLOAD_TRIES + rest.2)

/-- The page download of `last_website_version`:
`MAX_TRIES_FOR_PAGE_DOWNLOAD` attempts starting at attempt 0. -/
def downloadPage (get : Nat → HttpResponse) : Option HttpResponse × Nat :=
  downloadLoop get 0 MAX_TRIES_FOR_PAGE_DOWNLOAD

/-- `os.path.basename` (posix): the suffix after the last slash. -/
def basenameChars (cs : List Char) : List Char :=
  (cs.reverse.takeWhile (fun c => c ≠ '/')).reverse

/-- `KNOWN_FILE_EXTENSIONS` of `update_utils.py`, in source order. -/
def KNOWN_FILE_EXTENSIONS : List String :=
  ["gzip", "tar", "tgz", "tar.gz", "tar.bz2", "tar.xz", "zip"]

/-- Python `str.endswith`. -/
def endsWithStr (s suffix : String) : Bool :=
  suffix.data.isSuffixOf s.data

/-- `remove_path_components` of `last_website_version`: take the final path
component, then strip the first extension of `KNOWN_FILE_EXTENSIONS` that
occurs as an exact dot-prefixed suffix, if any. -/
def remove_path_components (filepath : String) : String :=
  let basename := String.mk (basenameChars filepath.data)
  match KNOWN_FILE_EXTENSIONS.find? (fun ext => endsWithStr basename ("." ++ ext)) with
  | some ext => String.mk (basename.data.take (basename.data.length - (ext.length + 1)))
  | none => basename

/-- One HTML element produced by the CSS selector: its attribute map and its
inner text. -/
structure HtmlElement where
  attrib : List (String × String)
  text : String
deriving DecidableEq, Repr

/-- The fatal failures of `last_website_version`: the `HTTPError` raised when
every download attempt failed, and the `KeyError` raised by
`html_tag.attrib[attribute]` on an element lacking the attribute. -/
inductive QueryError
  | httpError (url : String)
  | keyError (attr : String)
deriving DecidableEq, Repr

/-- The attribute extraction `[html_tag.attrib[attribute] for html_tag in
tags]`: evaluated left to right, raising `KeyError` at the first element
lacking the attribute. -/
def extract_attrib_texts (attr : String) :
    List HtmlElement → Except QueryError (List String)
  | [] => Except.ok []
  | e :: es =>
    match e.attrib.lookup attr with
    | none => Except.error (QueryError.keyError attr)
    | some v =>
      match extract_attrib_texts attr es with
      | Except.error err => Except.error err
      | Except.ok vs => Except.ok (v :: vs)

/-- The candidate-string extraction of `last_website_version`: the named
attribute's value of every selected element when an attribute is given, the
inner text otherwise. -/
def extract_version_texts (optional_attribute : Option String)
    (elems : List HtmlElement) : Except QueryError (List String) :=
  match optional_attribute with
  | some attr => extract_attrib_texts attr elems
  | none => Except.ok (elems.map (fun e => e.text))

/-- `VersionQuery.last_website_version` with the default version pattern and
default sort key.  `get` is the oracle for `requests.get` per attempt;
`find` models `PyQuery(response.text).find(selector)` as a function of the
page text and the selector.  Download the page with retry, extract one raw
candidate per selected element, normalize each with
`remove_path_components`, match the default pattern, and select the top-1 or
top-3 complete matches. -/
def last_website_version (get : Nat → HttpResponse)
    (find : String → String → List HtmlElement)
    (website_url : String) (selector : String)
    (optional_attribute : Option String) (multiple_versions : Bool) :
    Except QueryError (Option (List String)) :=
  match (downloadPage get).1 with
  | none => Except.error (QueryError.httpError website_url)
  | some response =>
    match extract_version_texts optional_attribute (find response.text selector) with
    | Except.error e => Except.error e
    | Except.ok version_texts =>
      let filtered_versions := version_texts.filterMap
        (fun version_text => searchVersion (remove_path_components version_text))
      Except.ok (selectTop keyLt default_sort_key filtered_versions multiple_versions)

/-- The values `url_verifier` can produce over default-pattern candidates:
the sentinel, or a tuple of integers. -/
def RankP : RankVal → Prop
  | RankVal.unranked => True
  | RankVal.ranked k => allInt k = true

/-- Concrete HEAD oracle for witnesses: every URL answers 404. -/
def headAll404 : String → Nat := fun _ => 404

/-- Concrete HEAD oracle for witnesses: only the v1.0.0 tarball answers
200. -/
def headOnlyV100 : String → Nat := fun u =>
  if u = "https://example.org/v1.0.0.tar.gz" then 200 else 404

/-- Concrete verification template for witnesses. -/
def tmplExample : UrlTemplate := ⟨"https://example.org/", ".tar.gz"⟩

/-- Concrete tag listing for witnesses. -/
def tagsExample : List String :=
  ["0000 refs/tags/v1.0.0", "0000 refs/tags/v2.0.0"]

/-- Concrete match of tag v1.0.0. -/
def vm100 : VersionMatch := ⟨"v1.0.0", [some "1", some "0", some "0"]⟩

/-- Concrete match of tag v2.0.0. -/
def vm200 : VersionMatch := ⟨"v2.0.0", [some "2", some "0", some "0"]⟩

/-! ## Order properties of the key comparisons -/

theorem elemEq_refl (a : SortKeyElem) : elemEq a a = true := by
  cases a <;> simp [elemEq]

theorem keyLt_self (a : List SortKeyElem) : keyLt a a = false := by
  induction a with
  | nil => rfl
  | cons x xs ih => simp [keyLt, keyLtOpt, elemEq_refl] at ih ⊢; exact ih

theorem allInt_head (x : SortKeyElem) (xs : List SortKeyElem)
    (h : allInt (x :: xs) = true) : (∃ n, x = SortKeyElem.int n) ∧ allInt xs = true := by
  cases x with
  | int n =>
    refine ⟨⟨n, rfl⟩, ?_⟩
    unfold allInt at h ⊢
    rw [List.all_cons] at h
    simpa using h
  | str s => simp [allInt] at h

theorem keyLt_trans_allInt :
    ∀ (a b c : List SortKeyElem), allInt a = true → allInt b = true → allInt c = true →
      keyLt a b = true → keyLt b c = true → keyLt a c = true := by
  intro a
  induction a with
  | nil =>
    intro b c _ hb _ hab hbc
    cases c with
    | nil =>
      cases b with
      | nil => simp [keyLt, keyLtOpt] at hab
      | cons y bs => simp [keyLt, keyLtOpt] at hbc
    | cons z cs => simp [keyLt, keyLtOpt]
  | cons x as ih =>
    intro b c ha hb hc hab hbc
    cases b with
    | nil => simp [keyLt, keyLtOpt] at hab
    | cons y bs =>
      cases c with
      | nil => simp [keyLt, keyLtOpt] at hbc
      | cons z cs =>
        obtain ⟨⟨nx, rfl⟩, has⟩ := allInt_head x as ha
        obtain ⟨⟨ny, rfl⟩, hbs⟩ := allInt_head y bs hb
        obtain ⟨⟨nz, rfl⟩, hcs⟩ := allInt_head z cs hc
        by_cases hxy : nx = ny
        · subst hxy
          by_cases hyz : nx = nz
          · subst hyz
            have hab' : keyLt as bs = true := by
              simpa [keyLt, keyLtOpt, elemEq] using hab
            have hbc' : keyLt bs cs = true := by
              simpa [keyLt, keyLtOpt, elemEq] using hbc
            simpa [keyLt, keyLtOpt, elemEq] using ih bs cs has hbs hcs hab' hbc'
          · have hbc' : nx < nz := by
              simpa [keyLt, keyLtOpt, elemEq, elemLt, hyz] using hbc
            simp [keyLt, keyLtOpt, elemEq, elemLt, hyz, hbc']
        · have hab' : nx < ny := by
            simpa [keyLt, keyLtOpt, elemEq, elemLt, hxy] using hab
          have hyz' : ny ≤ nz := by
            by_cases hyz : ny = nz
            · omega
            · have : ny < nz := by
                simpa [keyLt, keyLtOpt, elemEq, elemLt, hyz] using hbc
              omega
          have hxz : nx < nz := by omega
          simp [keyLt, keyLtOpt, elemEq, elemLt, show ¬ nx = nz from by omega, hxz]

theorem keyLt_total_allInt :
    ∀ (a b : List SortKeyElem), allInt a = true → allInt b = true →
      keyLt a b = false → a = b ∨ keyLt b a = true := by
  intro a
  induction a with
  | nil =>
    intro b _ _ hab
    cases b with
    | nil => exact Or.inl rfl
    | cons y bs => simp [keyLt, keyLtOpt] at hab
  | cons x as ih =>
    intro b ha hb hab
    cases b with
    | nil => exact Or.inr (by simp [keyLt, keyLtOpt])
    | cons y bs =>
      obtain ⟨⟨nx, rfl⟩, has⟩ := allInt_head x as ha
      obtain ⟨⟨ny, rfl⟩, hbs⟩ := allInt_head y bs hb
      by_cases hxy : nx = ny
      · subst hxy
        have hab' : keyLt as bs = false := by
          simpa [keyLt, keyLtOpt, elemEq] using hab
        rcases ih bs has hbs hab' with h | h
        · exact Or.inl (by rw [h])
        · exact Or.inr (by simpa [keyLt, keyLtOpt, elemEq] using h)
      · have hab' : ¬ nx < ny := by
          simpa [keyLt, keyLtOpt, elemEq, elemLt, hxy] using hab
        refine Or.inr ?_
        simp [keyLt, keyLtOpt, elemEq, elemLt, show ¬ ny = nx from by omega]
        omega

theorem keyLtOpt_isSome_allInt :
    ∀ (a b : List SortKeyElem), allInt a = true → allInt b = true →
      (keyLtOpt a b).isSome = true := by
  intro a
  induction a with
  | nil => intro b _ _; cases b <;> simp [keyLtOpt]
  | cons x as ih =>
    intro b ha hb
    cases b with
    | nil => simp [keyLtOpt]
    | cons y bs =>
      obtain ⟨⟨nx, rfl⟩, has⟩ := allInt_head x as ha
      obtain ⟨⟨ny, rfl⟩, hbs⟩ := allInt_head y bs hb
      simp only [keyLtOpt, elemEq, elemLt]
      by_cases hxy : nx = ny
      · simp [hxy]; exact ih bs has hbs
      · simp [hxy]

theorem rankLt_self (r : RankVal) : rankLt r r = false := by
  cases r with
  | unranked => rfl
  | ranked k => simpa [rankLt] using keyLt_self k

theorem rankLt_trans_rankP (a b c : RankVal) (ha : RankP a) (hb : RankP b) (hc : RankP c)
    (hab : rankLt a b = true) (hbc : rankLt b c = true) : rankLt a c = true := by
  cases a with
  | unranked =>
    cases b with
    | unranked => simp [rankLt] at hab
    | ranked kb =>
      cases c with
      | unranked => simp [rankLt] at hbc
      | ranked kc => simp [rankLt]
  | ranked ka =>
    cases b with
    | unranked => simp [rankLt] at hab
    | ranked kb =>
      cases c with
      | unranked => simp [rankLt] at hbc
      | ranked kc =>
        simp only [rankLt] at hab hbc ⊢
        exact keyLt_trans_allInt ka kb kc ha hb hc hab hbc

theorem rankLt_total_rankP (a b : RankVal) (ha : RankP a) (hb : RankP b)
    (hab : rankLt a b = false) : a = b ∨ rankLt b a = true := by
  cases a with
  | unranked =>
    cases b with
    | unranked => exact Or.inl rfl
    | ranked kb => simp [rankLt] at hab
  | ranked ka =>
    cases b with
    | unranked => exact Or.inr (by simp [rankLt])
    | ranked kb =>
      simp only [rankLt] at hab
      rcases keyLt_total_allInt ka kb ha hb hab with h | h
      · exact Or.inl (by rw [h])
      · exact Or.inr (by simpa [rankLt] using h)

/-! ## Properties of the selection functions -/

theorem pyMax_mem {κ : Type} (lt : κ → κ → Bool) (key : VersionMatch → κ) :
    ∀ (xs : List VersionMatch) (cur : VersionMatch),
      pyMax lt key cur xs ∈ cur :: xs := by
  intro xs
  induction xs with
  | nil => intro cur; simp [pyMax]
  | cons x xs ih =>
    intro cur
    by_cases hc : lt (key cur) (key x) = true
    · have h := ih x
      have heq : pyMax lt key cur (x :: xs) = pyMax lt key x xs := by
        simp [pyMax, hc]
      rw [heq]
      exact List.mem_cons_of_mem _ h
    · rw [Bool.not_eq_true] at hc
      have h := ih cur
      have heq : pyMax lt key cur (x :: xs) = pyMax lt key cur xs := by
        simp [pyMax, hc]
      rw [heq]
      rcases List.mem_cons.1 h with h' | h'
      · rw [h']; exact List.mem_cons_self _ _
      · exact List.mem_cons_of_mem _ (List.mem_cons_of_mem _ h')

theorem pyMax_of_all_not_lt {κ : Type} (lt : κ → κ → Bool) (key : VersionMatch → κ) :
    ∀ (xs : List VersionMatch) (cur : VersionMatch),
      (∀ x ∈ xs, lt (key cur) (key x) = false) →
      pyMax lt key cur xs = cur := by
  intro xs
  induction xs with
  | nil => intro cur _; rfl
  | cons x xs ih =>
    intro cur h
    have hx : lt (key cur) (key x) = false := h x (List.mem_cons_self x xs)
    simp only [pyMax, hx, Bool.false_eq_true, if_false]
    exact ih cur fun y hy => h y (List.mem_cons_of_mem _ hy)

theorem pyMax_not_lt {κ : Type} (lt : κ → κ → Bool) (key : VersionMatch → κ)
    (P : κ → Prop)
    (htrans : ∀ a b c, P a → P b → P c → lt a b = true → lt b c = true → lt a c = true)
    (htotal : ∀ a b, P a → P b → lt a b = false → a = b ∨ lt b a = true)
    (hirr : ∀ a, P a → lt a a = false) :
    ∀ (xs : List VersionMatch) (cur : VersionMatch),
      (∀ x ∈ cur :: xs, P (key x)) →
      ∀ y ∈ cur :: xs, lt (key (pyMax lt key cur xs)) (key y) = false := by
  intro xs
  induction xs with
  | nil =>
    intro cur hP y hy
    rcases List.mem_cons.1 hy with rfl | h
    · exact hirr _ (hP y (List.mem_cons_self y []))
    · cases h
  | cons x xs ih =>
    intro cur hP y hy
    have hPcur : P (key cur) := hP cur (List.mem_cons_self cur (x :: xs))
    have hPx : P (key x) := hP x (List.mem_cons_of_mem _ (List.mem_cons_self x xs))
    by_cases hc : lt (key cur) (key x) = true
    · have hP' : ∀ z ∈ x :: xs, P (key z) := by
        intro z hz
        rcases List.mem_cons.1 hz with rfl | h
        · exact hPx
        · exact hP z (List.mem_cons_of_mem _ (List.mem_cons_of_mem _ h))
      have hM := ih x hP'
      have hMP : P (key (pyMax lt key x xs)) := hP' _ (pyMax_mem lt key xs x)
      have heq : pyMax lt key cur (x :: xs) = pyMax lt key x xs := by
        simp [pyMax, hc]
      rw [heq]
      rcases List.mem_cons.1 hy with rfl | h
      · by_contra hlt
        rw [Bool.not_eq_false] at hlt
        have := htrans _ _ _ hMP hPcur hPx hlt hc
        have hfalse := hM x (List.mem_cons_self x xs)
        rw [this] at hfalse
        cases hfalse
      · exact hM y h
    · rw [Bool.not_eq_true] at hc
      have hP' : ∀ z ∈ cur :: xs, P (key z) := by
        intro z hz
        rcases List.mem_cons.1 hz with rfl | h
        · exact hPcur
        · exact hP z (List.mem_cons_of_mem _ (List.mem_cons_of_mem _ h))
      have hM := ih cur hP'
      have hMP : P (key (pyMax lt key cur xs)) := hP' _ (pyMax_mem lt key xs cur)
      have heq : pyMax lt key cur (x :: xs) = pyMax lt key cur xs := by
        simp [pyMax, hc]
      rw [heq]
      rcases List.mem_cons.1 hy with rfl | h
      · exact hM y (List.mem_cons_self y xs)
      · rcases List.mem_cons.1 h with rfl | h'
        · by_contra hlt
          rw [Bool.not_eq_false] at hlt
          rcases htotal _ _ hPcur hPx hc with heq' | hlt'
          · rw [← heq'] at hlt
            have hfalse := hM cur (List.mem_cons_self cur xs)
            rw [hlt] at hfalse
            cases hfalse
          · have := htrans _ _ _ hMP hPx hPcur hlt hlt'
            have hfalse := hM cur (List.mem_cons_self cur xs)
            rw [this] at hfalse
            cases hfalse
        · exact hM y (List.mem_cons_of_mem _ h')

theorem insertDesc_length {κ : Type} (lt : κ → κ → Bool) (key : VersionMatch → κ)
    (x : VersionMatch) : ∀ (l : List VersionMatch),
      (insertDesc lt key x l).length = l.length + 1 := by
  intro l
  induction l with
  | nil => rfl
  | cons y ys ih =>
    by_cases h : lt (key y) (key x) = true
    · simp [insertDesc, h]
    · rw [Bool.not_eq_true] at h
      simp [insertDesc, h, ih]

theorem sortDesc_length {κ : Type} (lt : κ → κ → Bool) (key : VersionMatch → κ)
    (l : List VersionMatch) : (sortDesc lt key l).length = l.length := by
  suffices h : ∀ (l acc : List VersionMatch),
      (l.foldl (fun acc x => insertDesc lt key x acc) acc).length = acc.length + l.length by
    simpa using h l []
  intro l
  induction l with
  | nil => intro acc; simp
  | cons x xs ih =>
    intro acc
    simp only [List.foldl_cons]
    rw [ih, insertDesc_length]
    simp only [List.length_cons]
    omega

/-! ## The all-integer invariant of default-pattern candidates -/

theorem versionCore_digits (cs : List Char) (gs : List (Option String))
    (h : versionCore cs = some gs) :
    (gs.filterMap id).all strIsDigits = true := by
  unfold versionCore at h
  rcases hsp : splitOnDot cs with _ | ⟨a, _ | ⟨b, _ | ⟨c, _ | _⟩⟩⟩ <;>
    rw [hsp] at h <;> simp only at h
  · cases h
  · cases h
  · by_cases hd : (isDigitRun a && isDigitRun b) = true
    · rw [if_pos hd] at h
      obtain rfl : [some (String.mk a), some (String.mk b), none] = gs := by
        injection h
      simp only [Bool.and_eq_true] at hd
      simp [strIsDigits, hd.1, hd.2]
    · rw [if_neg hd] at h; cases h
  · by_cases hd : (isDigitRun a && isDigitRun b && isDigitRun c) = true
    · rw [if_pos hd] at h
      obtain rfl : [some (String.mk a), some (String.mk b), some (String.mk c)] = gs := by
        injection h
      simp only [Bool.and_eq_true] at hd
      simp [strIsDigits, hd.1.1, hd.1.2, hd.2]
    · rw [if_neg hd] at h; cases h
  · cases h

theorem versionGroups_digits (cs : List Char) (gs : List (Option String))
    (h : versionGroups cs = some gs) :
    (gs.filterMap id).all strIsDigits = true := by
  cases cs with
  | nil => simp [versionGroups] at h
  | cons c rest =>
    simp only [versionGroups] at h
    split at h
    · exact versionCore_digits rest gs h
    · exact versionCore_digits (c :: rest) gs h

theorem groups_digits_allInt (m : VersionMatch)
    (h : (m.groups.filterMap id).all strIsDigits = true) :
    allInt (default_sort_key m) = true := by
  rw [List.all_eq_true] at h
  unfold default_sort_key allInt
  rw [List.all_eq_true]
  intro e he
  rw [List.mem_map] at he
  obtain ⟨c, hc, rfl⟩ := he
  have hd := h c hc
  simp [hd]

theorem searchVersionChars_groups :
    ∀ (cs : List Char) (m : VersionMatch), searchVersionChars cs = some m →
      ∃ l, versionGroups l = some m.groups := by
  intro cs
  induction cs with
  | nil => intro m h; cases h
  | cons c rest ih =>
    intro m h
    unfold searchVersionChars at h
    rcases hg : versionGroups (c :: rest) with _ | gs
    · rw [hg] at h; simp only at h
      exact ih m h
    · rw [hg] at h; simp only at h
      obtain rfl : (⟨String.mk (c :: rest), gs⟩ : VersionMatch) = m := by
        injection h
      exact ⟨c :: rest, hg⟩

theorem matchTagLineChars_groups :
    ∀ (cs : List Char) (m : VersionMatch), matchTagLineChars cs = some m →
      ∃ l, versionGroups l = some m.groups := by
  intro cs
  induction cs with
  | nil => intro m h; cases h
  | cons c rest ih =>
    intro m h
    unfold matchTagLineChars at h
    by_cases hp : refsTagsLit.isPrefixOf (c :: rest) = true
    · rw [if_pos hp] at h
      rcases hg : versionGroups ((c :: rest).drop 10) with _ | gs
      · rw [hg] at h; simp only at h
        exact ih m h
      · rw [hg] at h; simp only at h
        obtain rfl : (⟨String.mk ((c :: rest).drop 10), gs⟩ : VersionMatch) = m := by
          injection h
        exact ⟨(c :: rest).drop 10, hg⟩
    · rw [if_neg hp] at h
      exact ih m h

theorem searchVersion_allInt (s : String) (m : VersionMatch)
    (h : searchVersion s = some m) : allInt (default_sort_key m) = true := by
  obtain ⟨l, hl⟩ := searchVersionChars_groups s.data m h
  exact groups_digits_allInt m (versionGroups_digits l m.groups hl)

theorem matchTagLine_allInt (line : String) (m : VersionMatch)
    (h : matchTagLine line = some m) : allInt (default_sort_key m) = true := by
  obtain ⟨l, hl⟩ := matchTagLineChars_groups line.data m h
  exact groups_digits_allInt m (versionGroups_digits l m.groups hl)

theorem mem_filtered_tags_allInt (lines : List String) (x : VersionMatch)
    (hx : x ∈ filtered_tags matchTagLine lines) :
    allInt (default_sort_key x) = true := by
  obtain ⟨line, _, hline⟩ := List.mem_filterMap.1 hx
  exact matchTagLine_allInt line x hline

/-! ## Normalization, attribute extraction and download helpers -/

theorem remove_path_components_cases (s : String) :
    remove_path_components s = String.mk (basenameChars s.data) ∨
    ∃ ext, ext ∈ KNOWN_FILE_EXTENSIONS ∧
      String.mk (basenameChars s.data) = remove_path_components s ++ "." ++ ext := by
  rcases hf : KNOWN_FILE_EXTENSIONS.find?
      (fun ext => endsWithStr (String.mk (basenameChars s.data)) ("." ++ ext)) with _ | ext
  · left
    simp only [remove_path_components]
    rw [hf]
  · right
    refine ⟨ext, List.mem_of_find?_eq_some hf, ?_⟩
    have hends := List.find?_some hf
    have hsuffix : ("." ++ ext).data.isSuffixOf (basenameChars s.data) = true := hends
    rw [List.isSuffixOf_iff_suffix] at hsuffix
    obtain ⟨t, ht⟩ := hsuffix
    have hrpc : remove_path_components s
        = String.mk ((basenameChars s.data).take
            ((basenameChars s.data).length - (ext.length + 1))) := by
      simp only [remove_path_components]
      rw [hf]
    rw [hrpc]
    apply String.ext
    rw [String.data_append, String.data_append]
    have ht' : basenameChars s.data = t ++ ("." ++ ext).data := ht.symm
    rw [ht']
    have hlen : (t ++ ("." ++ ext).data).length - (ext.length + 1) = t.length := by
      have h2 : ext.data.length = ext.length := rfl
      simp [String.data_append]
    rw [hlen, List.take_left, String.data_append, ← List.append_assoc]

theorem basenameChars_no_slash (cs : List Char) :
    ('/' ∈ basenameChars cs) → False := by
  intro h
  unfold basenameChars at h
  rw [List.mem_reverse] at h
  have hprop := List.mem_takeWhile_imp h
  simp at hprop

theorem extract_attrib_texts_error (attr : String) :
    ∀ (elems : List HtmlElement), (∃ e ∈ elems, e.attrib.lookup attr = none) →
      extract_attrib_texts attr elems = Except.error (QueryError.keyError attr) := by
  intro elems
  induction elems with
  | nil => rintro ⟨e, he, _⟩; cases he
  | cons e es ih =>
    rintro ⟨f, hf, hnone⟩
    rcases List.mem_cons.1 hf with rfl | hfs
    · simp [extract_attrib_texts, hnone]
    · have ihres := ih ⟨f, hfs, hnone⟩
      simp only [extract_attrib_texts]
      rcases hl : e.attrib.lookup attr with _ | v
      · rfl
      · simp [ihres]

theorem extract_attrib_texts_ok (attr : String) :
    ∀ (elems : List HtmlElement), (∀ e ∈ elems, (e.attrib.lookup attr).isSome = true) →
      ∃ texts, extract_attrib_texts attr elems = Except.ok texts := by
  intro elems
  induction elems with
  | nil => intro _; exact ⟨[], rfl⟩
  | cons e es ih =>
    intro h
    have he := h e (List.mem_cons_self e es)
    rcases hl : e.attrib.lookup attr with _ | v
    · rw [hl] at he; cases he
    · obtain ⟨texts, htexts⟩ := ih fun f hf => h f (List.mem_cons_of_mem _ hf)
      refine ⟨v :: texts, ?_⟩
      simp only [extract_attrib_texts]
      simp [hl, htexts]

theorem extract_attrib_texts_error_shape (attr : String) :
    ∀ (elems : List HtmlElement) (e : QueryError),
      extract_attrib_texts attr elems = Except.error e →
      e = QueryError.keyError attr := by
  intro elems
  induction elems with
  | nil => intro e h; cases h
  | cons el els ih =>
    intro e h
    simp only [extract_attrib_texts] at h
    rcases hl : el.attrib.lookup attr with _ | v
    · rw [hl] at h
      simp at h
      exact h.symm
    · rw [hl] at h
      rcases hrec : extract_attrib_texts attr els with e' | vs
      · rw [hrec] at h
        simp at h
        exact h ▸ ih e' hrec
      · rw [hrec] at h
        simp at h

theorem extract_version_texts_error_shape (attr : Option String)
    (elems : List HtmlElement) (e : QueryError)
    (h : extract_version_texts attr elems = Except.error e) :
    ∃ a, attr = some a ∧ e = QueryError.keyError a := by
  cases attr with
  | none => simp [extract_version_texts] at h
  | some a => exact ⟨a, rfl, extract_attrib_texts_error_shape a elems e h⟩

theorem downloadPage_eq (get : Nat → HttpResponse) :
    downloadPage get
      = if (get 0).status_code == 200 then (some (get 0), 0)
        else if (get 1).status_code == 200 then (some (get 1), 10)
        else if (get 2).status_code == 200 then (some (get 2), 20)
        else (none, 30) := by
  have e1 : downloadPage get
      = if (get 0).status_code == 200 then (some (get 0), 0)
        else ((downloadLoop get 1 2).1, 10 + (downloadLoop get 1 2).2) := rfl
  have e2 : downloadLoop get 1 2
      = if (get 1).status_code == 200 then (some (get 1), 0)
        else ((downloadLoop get 2 1).1, 10 + (downloadLoop get 2 1).2) := rfl
  have e3 : downloadLoop get 2 1
      = if (get 2).status_code == 200 then (some (get 2), 0)
        else (none, 10) := rfl
  rw [e1, e2, e3]
  by_cases h0 : ((get 0).status_code == 200) = true
  · simp [h0]
  · by_cases h1 : ((get 1).status_code == 200) = true
    · simp [h0, h1]
    · by_cases h2 : ((get 2).status_code == 200) = true
      · simp [h0, h1, h2]
      · simp [h0, h1, h2]

theorem last_website_version_of_download (get : Nat → HttpResponse)
    (find : String → String → List HtmlElement) (url sel : String)
    (attr : Option String) (mult : Bool) (resp : HttpResponse)
    (hdp : (downloadPage get).1 = some resp) :
    last_website_version get find url sel attr mult
      = match extract_version_texts attr (find resp.text sel) with
        | Except.error e => Except.error e
        | Except.ok version_texts =>
          Except.ok (selectTop keyLt default_sort_key
            (version_texts.filterMap
              (fun t => searchVersion (remove_path_components t))) mult) := by
  unfold last_website_version
  rw [hdp]

theorem last_website_version_httpError_iff (get : Nat → HttpResponse)
    (find : String → String → List HtmlElement) (url sel : String)
    (attr : Option String) (mult : Bool) :
    (last_website_version get find url sel attr mult
      = Except.error (QueryError.httpError url))
    ↔ (downloadPage get).1 = none := by
  rcases hdp : (downloadPage get).1 with _ | resp
  · constructor
    · intro _; rfl
    · intro _
      unfold last_website_version
      rw [hdp]
  · rw [last_website_version_of_download get find url sel attr mult resp hdp]
    constructor
    · intro h
      rcases hev : extract_version_texts attr (find resp.text sel) with e | texts
      · rw [hev] at h
        have he : e = QueryError.httpError url := by simpa using h
        obtain ⟨a, _, ha⟩ := extract_version_texts_error_shape attr _ e hev
        rw [ha] at he
        simp at he
      · rw [hev] at h
        simp at h
    · intro h
      simp at h

/-! ## Claim theorems -/

/-- C3: the default sort key maps a VersionMatch to the tuple of its capture
groups in order, skipping absent groups, coercing all-digit groups to
integers and keeping other groups as strings; the match for "v2.10.0" yields
the tuple (2, 10, 0), which compares strictly greater than the tuple
(2, 9, 0) for "v2.9.0" under numeric (not lexicographic) ordering. -/
theorem c3_default_sort_key :
    (∀ m : VersionMatch, default_sort_key m
      = (m.groups.filterMap id).map (fun c =>
          if strIsDigits c then SortKeyElem.int (digitsToNat c) else SortKeyElem.str c))
    ∧ searchVersion "v2.10.0" = some ⟨"v2.10.0", [some "2", some "10", some "0"]⟩
    ∧ default_sort_key ⟨"v2.10.0", [some "2", some "10", some "0"]⟩
        = [SortKeyElem.int 2, SortKeyElem.int 10, SortKeyElem.int 0]
    ∧ searchVersion "v2.9.0" = some ⟨"v2.9.0", [some "2", some "9", some "0"]⟩
    ∧ default_sort_key ⟨"v2.9.0", [some "2", some "9", some "0"]⟩
        = [SortKeyElem.int 2, SortKeyElem.int 9, SortKeyElem.int 0]
    ∧ keyLt [SortKeyElem.int 2, SortKeyElem.int 9, SortKeyElem.int 0]
        [SortKeyElem.int 2, SortKeyElem.int 10, SortKeyElem.int 0] = true
    ∧ keyLt [SortKeyElem.int 2, SortKeyElem.int 10, SortKeyElem.int 0]
        [SortKeyElem.int 2, SortKeyElem.int 9, SortKeyElem.int 0] = false
    ∧ default_sort_key ⟨"x", [some "1", none, some "beta"]⟩
        = [SortKeyElem.int 1, SortKeyElem.str "beta"] := by
  refine ⟨fun m => rfl, ?_, ?_, ?_, ?_, ?_, ?_, ?_⟩ <;> decide

/-- C9: every candidate matched by the default version pattern has only
digit characters in its present capture groups, so the default sort key
produces an all-integer tuple for such candidates, and comparing two such
keys never reaches the mixed-type (`TypeError`) branch: `keyLtOpt` is
`some` on them. -/
theorem c9_default_pattern_int_keys :
    (∀ s m, searchVersion s = some m →
        (m.groups.filterMap id).all strIsDigits = true)
    ∧ (∀ s m, searchVersion s = some m → allInt (default_sort_key m) = true)
    ∧ (∀ line m, matchTagLine line = some m → allInt (default_sort_key m) = true)
    ∧ (∀ s1 s2 m1 m2, searchVersion s1 = some m1 → searchVersion s2 = some m2 →
        (keyLtOpt (default_sort_key m1) (default_sort_key m2)).isSome = true) := by
  refine ⟨?_, searchVersion_allInt, matchTagLine_allInt, ?_⟩
  · intro s m h
    obtain ⟨l, hl⟩ := searchVersionChars_groups s.data m h
    exact versionGroups_digits l m.groups hl
  · intro s1 s2 m1 m2 h1 h2
    exact keyLtOpt_isSome_allInt _ _
      (searchVersion_allInt s1 m1 h1) (searchVersion_allInt s2 m2 h2)

/-- Witness for C9 at the concrete input "v1.2". -/
theorem c9_witness :
    allInt (default_sort_key ⟨"v1.2", [some "1", some "2", none]⟩) = true :=
  c9_default_pattern_int_keys.2.1 "v1.2" ⟨"v1.2", [some "1", some "2", none]⟩
    (by decide)

/-- C2: when no tag line matches the (arbitrary) pattern, the git-tag query
returns the absent result (`none`) rather than raising, and absence is
distinct from a transport failure, which propagates as an error. -/
theorem c2_no_match_absent {κ : Type} (lt : κ → κ → Bool)
    (sort_key : VersionMatch → κ) (matcher : String → Option VersionMatch)
    (all_tags : List String) (multiple_versions : Bool)
    (hnone : ∀ t ∈ all_tags, matcher t = none) :
    last_git_tag_run (Except.ok all_tags) matcher lt sort_key multiple_versions
      = Except.ok none
    ∧ ∀ e : GitError,
        last_git_tag_run (Except.error e) matcher lt sort_key multiple_versions
          = Except.error e := by
  constructor
  · have hft : filtered_tags matcher all_tags = [] := by
      unfold filtered_tags
      exact List.filterMap_eq_nil_iff.mpr hnone
    simp [last_git_tag_run, last_git_tag, hft, selectTop]
  · intro e; rfl

/-- Witness for C2 at a concrete non-matching tag list. -/
theorem c2_witness :
    last_git_tag_run (Except.ok ["0000 refs/tags/nightly"]) matchTagLine keyLt
      default_sort_key true = Except.ok none :=
  (c2_no_match_absent keyLt default_sort_key matchTagLine
    ["0000 refs/tags/nightly"] true (by decide)).1

/-- C4: for every non-empty list of tags matched by the default pattern, the
tag selected as latest by the single-result git-tag query has a default sort
key greater than or equal to (equal to, or strictly above) the key of every
matched tag. -/
theorem c4_selected_key_maximal (all_tags : List String) (m : VersionMatch)
    (ms : List VersionMatch)
    (hm : filtered_tags matchTagLine all_tags = m :: ms) :
    last_git_tag_default all_tags false
      = some [(pyMax keyLt default_sort_key m ms).complete_match]
    ∧ ∀ x ∈ m :: ms,
        default_sort_key x = default_sort_key (pyMax keyLt default_sort_key m ms)
        ∨ keyLt (default_sort_key x)
            (default_sort_key (pyMax keyLt default_sort_key m ms)) = true := by
  have hP : ∀ x ∈ m :: ms, allInt (default_sort_key x) = true := by
    intro x hx
    exact mem_filtered_tags_allInt all_tags x (hm ▸ hx)
  constructor
  · unfold last_git_tag_default last_git_tag
    rw [hm]
    simp [selectTop]
  · intro x hx
    have hnl := pyMax_not_lt keyLt default_sort_key (fun k => allInt k = true)
      (fun a b c => keyLt_trans_allInt a b c)
      (fun a b => keyLt_total_allInt a b)
      (fun a _ => keyLt_self a)
      ms m hP x hx
    have hselP : allInt (default_sort_key (pyMax keyLt default_sort_key m ms)) = true :=
      hP _ (pyMax_mem keyLt default_sort_key ms m)
    rcases keyLt_total_allInt _ _ hselP (hP x hx) hnl with h | h
    · exact Or.inl h.symm
    · exact Or.inr h

/-- Witness for C4 at the concrete tag list with v2.9.0 and v2.10.0. -/
theorem c4_witness :
    default_sort_key ⟨"v2.9.0", [some "2", some "9", some "0"]⟩
      = default_sort_key (pyMax keyLt default_sort_key
          ⟨"v2.9.0", [some "2", some "9", some "0"]⟩
          [⟨"v2.10.0", [some "2", some "10", some "0"]⟩])
    ∨ keyLt (default_sort_key ⟨"v2.9.0", [some "2", some "9", some "0"]⟩)
        (default_sort_key (pyMax keyLt default_sort_key
          ⟨"v2.9.0", [some "2", some "9", some "0"]⟩
          [⟨"v2.10.0", [some "2", some "10", some "0"]⟩])) = true :=
  (c4_selected_key_maximal ["x refs/tags/v2.9.0", "x refs/tags/v2.10.0"]
    ⟨"v2.9.0", [some "2", some "9", some "0"]⟩
    [⟨"v2.10.0", [some "2", some "10", some "0"]⟩]
    (by decide)).2 _ (List.mem_cons_self _ _)

/-- C5: with the multiple flag true the query sorts matched candidates
descending by key and returns at most the top 3 complete matches (exactly
`min 3` of the number of matches); with the flag false it returns the single
maximum wrapped in a one-element list.  For tags v1.0.0, v1.2.0, v1.10.0,
single mode returns v1.10.0 and multiple mode returns all three in
descending numeric order. -/
theorem c5_selection_policy :
    last_git_tag_default
      ["0000 refs/tags/v1.0.0", "0000 refs/tags/v1.2.0", "0000 refs/tags/v1.10.0"]
      false = some ["v1.10.0"]
    ∧ last_git_tag_default
      ["0000 refs/tags/v1.0.0", "0000 refs/tags/v1.2.0", "0000 refs/tags/v1.10.0"]
      true = some ["v1.10.0", "v1.2.0", "v1.0.0"]
    ∧ (∀ all_tags : List String,
        ((last_git_tag_default all_tags true).getD []).length
          = min 3 (filtered_tags matchTagLine all_tags).length)
    ∧ (∀ (all_tags : List String) (m : VersionMatch) (ms : List VersionMatch),
        filtered_tags matchTagLine all_tags = m :: ms →
        last_git_tag_default all_tags false
          = some [(pyMax keyLt default_sort_key m ms).complete_match]
        ∧ last_git_tag_default all_tags true
          = some (((sortDesc keyLt default_sort_key (m :: ms)).take 3).map
              (fun v => v.complete_match))) := by
  refine ⟨by decide, by decide, ?_, ?_⟩
  · intro all_tags
    unfold last_git_tag_default last_git_tag
    rcases hft : filtered_tags matchTagLine all_tags with _ | ⟨m, ms⟩
    · simp [selectTop]
    · simp [selectTop, List.length_take, List.length_map, sortDesc_length]
  · intro all_tags m ms hm
    unfold last_git_tag_default last_git_tag
    rw [hm]
    exact ⟨by simp [selectTop], by simp [selectTop]⟩

/-- Witness for C5's conditional part at a concrete one-tag list. -/
theorem c5_witness :
    last_git_tag_default ["z refs/tags/v3.4.5"] false = some ["v3.4.5"]
    ∧ last_git_tag_default ["z refs/tags/v3.4.5"] true = some ["v3.4.5"] := by
  have h := c5_selection_policy.2.2.2 ["z refs/tags/v3.4.5"]
    ⟨"v3.4.5", [some "3", some "4", some "5"]⟩ [] (by decide)
  exact ⟨h.1, by rw [h.2]; rfl⟩

/-- C6: website-candidate normalization reduces a raw candidate to its final
path component and strips one known archive extension, matched as an exact
dot-prefixed suffix from the fixed list; "project-2.3.1.tar.gz" normalizes
to "project-2.3.1", on which the default pattern yields complete match
"2.3.1".  Generally the result is the basename either unchanged or with
exactly one listed extension (dot included) removed from its end. -/
theorem c6_normalization :
    remove_path_components "project-2.3.1.tar.gz" = "project-2.3.1"
    ∧ searchVersion (remove_path_components "project-2.3.1.tar.gz")
        = some ⟨"2.3.1", [some "2", some "3", some "1"]⟩
    ∧ remove_path_components "a/b/project-2.3.1.tar.gz" = "project-2.3.1"
    ∧ remove_path_components "foo.mytar" = "foo.mytar"
    ∧ (∀ s : String,
        remove_path_components s = String.mk (basenameChars s.data)
        ∨ ∃ ext, ext ∈ KNOWN_FILE_EXTENSIONS ∧
            String.mk (basenameChars s.data) = remove_path_components s ++ "." ++ ext) :=
  ⟨by decide, by decide, by decide, by decide, remove_path_components_cases⟩

/-- C7: the page download makes up to 3 attempts, sleeping 10 seconds after
each failed attempt (any non-200 status is a failure); when the first two
attempts fail and the third returns 200 the query proceeds with the third
response, having slept 2 x 10 seconds between the failed attempts; and the
website query fails with the download error exactly when all three attempts
returned non-200. -/
theorem c7_download_retry (get : Nat → HttpResponse)
    (find : String → String → List HtmlElement) (website_url selector : String)
    (optional_attribute : Option String) (multiple_versions : Bool) :
    ((get 0).status_code ≠ 200 → (get 1).status_code ≠ 200 →
      (get 2).status_code = 200 →
      (downloadPage get).1 = some (get 2)
      ∧ (downloadPage get).2 = 2 * WAIT_TIME_BETWEEN_PAGE_DOWNLOAD_TRIES)
    ∧ ((downloadPage get).1 = none ↔
        ∀ i, i < MAX_TRIES_FOR_PAGE_DOWNLOAD → (get i).status_code ≠ 200)
    ∧ (last_website_version get find website_url selector optional_attribute
          multiple_versions = Except.error (QueryError.httpError website_url)
        ↔ (downloadPage get).1 = none) := by
  refine ⟨?_, ?_, last_website_version_httpError_iff get find website_url
    selector optional_attribute multiple_versions⟩
  · intro h0 h1 h2
    rw [downloadPage_eq]
    constructor
    · simp [h0, h1, h2]
    · simp [h0, h1, h2, WAIT_TIME_BETWEEN_PAGE_DOWNLOAD_TRIES]
  · rw [downloadPage_eq]
    by_cases h0 : (get 0).status_code = 200
    · constructor
      · intro h
        simp [h0] at h
      · intro hall
        exact absurd h0 (hall 0 (by decide))
    · by_cases h1 : (get 1).status_code = 200
      · constructor
        · intro h
          simp [h0, h1] at h
        · intro hall
          exact absurd h1 (hall 1 (by decide))
      · by_cases h2 : (get 2).status_code = 200
        · constructor
          · intro h
            simp [h0, h1, h2] at h
          · intro hall
            exact absurd h2 (hall 2 (by decide))
        · constructor
          · intro _ i hi
            have hi3 : i < 3 := hi
            interval_cases i
            · exact h0
            · exact h1
            · exact h2
          · intro _
            simp [h0, h1, h2]

/-- Witness for C7: two failures then a 200 yield the third response after
20 seconds of sleeping. -/
theorem c7_witness :
    (downloadPage (fun i => if i == 2 then ⟨200, "page"⟩ else ⟨500, ""⟩)).1
      = some ((fun i : Nat => if i == 2 then (⟨200, "page"⟩ : HttpResponse)
          else ⟨500, ""⟩) 2)
    ∧ (downloadPage (fun i => if i == 2 then ⟨200, "page"⟩ else ⟨500, ""⟩)).2
      = 2 * WAIT_TIME_BETWEEN_PAGE_DOWNLOAD_TRIES :=
  (c7_download_retry (fun i => if i == 2 then ⟨200, "page"⟩ else ⟨500, ""⟩)
    (fun _ _ => []) "u" "s" none false).1 (by decide) (by decide) (by decide)

/-- C8: the query functions are deterministic: with pointwise-identical
collaborator responses (HEAD statuses for the git-tag query with
verification; page responses and selector results for the website query) and
identical parameters, the results are identical. -/
theorem c8_determinism (head1 head2 : String → Nat) (tmpl : UrlTemplate)
    (filter_func : String → String) (all_tags : List String) (mult1 : Bool)
    (get1 get2 : Nat → HttpResponse) (find : String → String → List HtmlElement)
    (url sel : String) (attr : Option String) (mult2 : Bool)
    (hh : ∀ u, head1 u = head2 u) (hg : ∀ n, get1 n = get2 n) :
    last_git_tag_verified head1 tmpl filter_func all_tags mult1
      = last_git_tag_verified head2 tmpl filter_func all_tags mult1
    ∧ last_website_version get1 find url sel attr mult2
      = last_website_version get2 find url sel attr mult2 := by
  have h1 : head1 = head2 := funext hh
  have h2 : get1 = get2 := funext hg
  rw [h1, h2]
  exact ⟨rfl, rfl⟩

/-- Witness for C8 at concrete equal oracles. -/
theorem c8_witness :
    last_git_tag_verified headAll404 tmplExample (fun x => x) tagsExample true
      = last_git_tag_verified headAll404 tmplExample (fun x => x) tagsExample true
    ∧ last_website_version (fun _ => ⟨200, "page"⟩) (fun _ _ => []) "u" "s"
        none false
      = last_website_version (fun _ => ⟨200, "page"⟩) (fun _ _ => []) "u" "s"
        none false :=
  c8_determinism headAll404 headAll404 tmplExample (fun x => x) tagsExample true
    (fun _ => ⟨200, "page"⟩) (fun _ => ⟨200, "page"⟩) (fun _ _ => []) "u" "s"
    none false (fun _ => rfl) (fun _ => rfl)

/-- C10: in the website query, when an attribute name is supplied and some
selected element lacks that attribute, the whole query fails with the
missing-key error instead of skipping the element; when every element has
the attribute, extraction succeeds and candidates are dropped only by the
version pattern's filterMap. -/
theorem c10_missing_attribute_fatal (get : Nat → HttpResponse)
    (find : String → String → List HtmlElement) (url sel attr : String)
    (mult : Bool) (resp : HttpResponse)
    (hdl : (downloadPage get).1 = some resp) :
    ((∃ e ∈ find resp.text sel, e.attrib.lookup attr = none) →
      last_website_version get find url sel (some attr) mult
        = Except.error (QueryError.keyError attr))
    ∧ ((∀ e ∈ find resp.text sel, (e.attrib.lookup attr).isSome = true) →
      ∃ texts, extract_attrib_texts attr (find resp.text sel) = Except.ok texts
        ∧ last_website_version get find url sel (some attr) mult
          = Except.ok (selectTop keyLt default_sort_key
              (texts.filterMap (fun t => searchVersion (remove_path_components t)))
              mult)) := by
  constructor
  · intro hex
    rw [last_website_version_of_download get find url sel (some attr) mult resp hdl]
    have herr := extract_attrib_texts_error attr (find resp.text sel) hex
    have hev : extract_version_texts (some attr) (find resp.text sel)
        = Except.error (QueryError.keyError attr) := herr
    rw [hev]
  · intro hall
    obtain ⟨texts, htexts⟩ := extract_attrib_texts_ok attr (find resp.text sel) hall
    refine ⟨texts, htexts, ?_⟩
    rw [last_website_version_of_download get find url sel (some attr) mult resp hdl]
    have hev : extract_version_texts (some attr) (find resp.text sel)
        = Except.ok texts := htexts
    rw [hev]

/-- Witness for C10: a single selected element lacking the requested
attribute makes the query fail with the missing-key error. -/
theorem c10_witness :
    last_website_version (fun _ => ⟨200, "page"⟩)
      (fun _ _ => [⟨[("id", "a")], "v1.2.3"⟩]) "u" "s" (some "href") false
      = Except.error (QueryError.keyError "href") :=
  (c10_missing_attribute_fatal (fun _ => ⟨200, "page"⟩)
    (fun _ _ => [⟨[("id", "a")], "v1.2.3"⟩]) "u" "s" "href" false
    ⟨200, "page"⟩ (by decide)).1 (by decide)

/-- C1 counterexample: with a HEAD oracle answering 404 for every URL, no
candidate of the two matched tags verifies, yet the single-result query
returns a one-element list holding the first matched candidate, not the
absent result the claim requires: all wrapped keys are the sentinel, every
comparison is a tie, and Python's max keeps the first element. -/
theorem c1_counterexample :
    last_git_tag_verified headAll404 tmplExample (fun x => x) tagsExample false
      = some ["v1.0.0"]
    ∧ (∀ x ∈ filtered_tags matchTagLine tagsExample,
        verifies headAll404 tmplExample (fun x => x) x = false)
    ∧ last_git_tag_verified headAll404 tmplExample (fun x => x) tagsExample false
      ≠ none := by
  refine ⟨by decide, by decide, by decide⟩

/-- C1 amended: the single-result git-tag query with a verification URL
returns the maximum of the matched candidates under the wrapped key; when
some candidate verifies, the selected candidate itself verifies and its
default sort key is greater than or equal to that of every verified
candidate (so the highest-keyed verified candidate is selected even when the
numerically maximal candidate fails verification, the unranked sentinel
sorting below every verified tuple); when no candidate verifies, the query
still returns a one-element list holding the first matched candidate rather
than an absent result. -/
theorem c1_amended (head : String → Nat) (tmpl : UrlTemplate)
    (filter_func : String → String) (all_tags : List String)
    (m : VersionMatch) (ms : List VersionMatch)
    (hm : filtered_tags matchTagLine all_tags = m :: ms) :
    last_git_tag_verified head tmpl filter_func all_tags false
      = some [(pyMax rankLt (url_verifier head default_sort_key tmpl filter_func)
          m ms).complete_match]
    ∧ ((∀ x ∈ m :: ms, verifies head tmpl filter_func x = false) →
        pyMax rankLt (url_verifier head default_sort_key tmpl filter_func) m ms = m)
    ∧ (∀ v ∈ m :: ms, verifies head tmpl filter_func v = true →
        verifies head tmpl filter_func
          (pyMax rankLt (url_verifier head default_sort_key tmpl filter_func) m ms)
          = true
        ∧ ∀ x ∈ m :: ms, verifies head tmpl filter_func x = true →
            default_sort_key x = default_sort_key
              (pyMax rankLt (url_verifier head default_sort_key tmpl filter_func) m ms)
            ∨ keyLt (default_sort_key x) (default_sort_key
              (pyMax rankLt (url_verifier head default_sort_key tmpl filter_func) m ms))
              = true) := by
  have hP : ∀ x ∈ m :: ms,
      RankP (url_verifier head default_sort_key tmpl filter_func x) := by
    intro x hx
    unfold url_verifier
    by_cases hv : verifies head tmpl filter_func x = true
    · rw [if_pos hv]
      exact mem_filtered_tags_allInt all_tags x (hm ▸ hx)
    · rw [Bool.not_eq_true] at hv
      rw [if_neg (by simp [hv])]
      trivial
  have hsel_mem := pyMax_mem rankLt
    (url_verifier head default_sort_key tmpl filter_func) ms m
  have hnl := pyMax_not_lt rankLt
    (url_verifier head default_sort_key tmpl filter_func) RankP
    rankLt_trans_rankP rankLt_total_rankP (fun a _ => rankLt_self a) ms m hP
  refine ⟨?_, ?_, ?_⟩
  · unfold last_git_tag_verified last_git_tag
    rw [hm]
    simp [selectTop]
  · intro hall
    apply pyMax_of_all_not_lt
    intro x hx
    have hm' := hall m (List.mem_cons_self m ms)
    have hx' := hall x (List.mem_cons_of_mem _ hx)
    simp [url_verifier, hm', hx', rankLt]
  · intro v hv hvtrue
    have hselv : verifies head tmpl filter_func
        (pyMax rankLt (url_verifier head default_sort_key tmpl filter_func) m ms)
        = true := by
      by_contra hsel
      rw [Bool.not_eq_true] at hsel
      have hlt := hnl v hv
      rw [show url_verifier head default_sort_key tmpl filter_func
          (pyMax rankLt (url_verifier head default_sort_key tmpl filter_func) m ms)
          = RankVal.unranked from by simp [url_verifier, hsel]] at hlt
      rw [show url_verifier head default_sort_key tmpl filter_func v
          = RankVal.ranked (default_sort_key v) from by
        simp [url_verifier, hvtrue]] at hlt
      simp [rankLt] at hlt
    refine ⟨hselv, ?_⟩
    intro x hx hxtrue
    have hlt := hnl x hx
    rw [show url_verifier head default_sort_key tmpl filter_func
        (pyMax rankLt (url_verifier head default_sort_key tmpl filter_func) m ms)
        = RankVal.ranked (default_sort_key
          (pyMax rankLt (url_verifier head default_sort_key tmpl filter_func) m ms))
        from by simp [url_verifier, hselv]] at hlt
    rw [show url_verifier head default_sort_key tmpl filter_func x
        = RankVal.ranked (default_sort_key x) from by
      simp [url_verifier, hxtrue]] at hlt
    have hlt' : keyLt (default_sort_key
        (pyMax rankLt (url_verifier head default_sort_key tmpl filter_func) m ms))
        (default_sort_key x) = false := by simpa [rankLt] using hlt
    have hseli : allInt (default_sort_key
        (pyMax rankLt (url_verifier head default_sort_key tmpl filter_func) m ms))
        = true :=
      mem_filtered_tags_allInt all_tags _ (hm ▸ hsel_mem)
    have hxi : allInt (default_sort_key x) = true :=
      mem_filtered_tags_allInt all_tags x (hm ▸ hx)
    rcases keyLt_total_allInt _ _ hseli hxi hlt' with h | h
    · exact Or.inl h.symm
    · exact Or.inr h

/-- Witness for C1 amended: only the lower candidate v1.0.0 verifies, so the
query skips the numerically maximal v2.0.0 and returns v1.0.0. -/
theorem c1_witness :
    last_git_tag_verified headOnlyV100 tmplExample (fun x => x) tagsExample false
      = some [(pyMax rankLt
          (url_verifier headOnlyV100 default_sort_key tmplExample (fun x => x))
          vm100 [vm200]).complete_match]
    ∧ verifies headOnlyV100 tmplExample (fun x => x)
        (pyMax rankLt
          (url_verifier headOnlyV100 default_sort_key tmplExample (fun x => x))
          vm100 [vm200]) = true := by
  have h := c1_amended headOnlyV100 tmplExample (fun x => x) tagsExample
    vm100 [vm200] (by decide)
  exact ⟨h.1, (h.2.2 vm100 (List.mem_cons_self _ _) (by decide)).1⟩

end ZshUpdater
